import Mathlib

/-!
Shallow embedding of the Harmony work-item scheduling and execution engine
(work-item polling, batch numbering, service runner, error resolution,
log capture and persistence), together with theorems checking the
specification's claims against the embedded code.

Sources embedded:
- services/harmony/app/backends/workflow-orchestration/work-item-polling.ts
- services/harmony/app/models/batch.ts
- the service-runner worker module (LogStream, _getStacCatalogs,
  _getErrorMessageOfStatus, _getErrorMessage, uploadLogs, runServiceFromPull)

External collaborators (object store, SQS-like queue, knex transactions,
and the few store helper functions whose sources are not part of this
tree) are modelled explicitly as inputs; each such definition carries a
comment saying what it stands for.
-/

/-- Status of a work item.  Modelled from the spec: the work-item-interface
module is not part of this tree; the spec lists the statuses
READY, RUNNING, SUCCESSFUL, FAILED, CANCELED. -/
inductive WorkItemStatus
  | ready
  | running
  | successful
  | failed
  | canceled
  deriving DecidableEq, Repr

/-! ## Batch model (services/harmony/app/models/batch.ts) -/

/-- A persisted batch row: groups work items for one (jobID, serviceID). -/
structure BatchRecord where
  jobID : String
  serviceID : String
  batchID : Nat
  deriving DecidableEq, Repr

/-- The rows of the batches table selected by the query's `where` clause. -/
def matchingBatches (table : List BatchRecord) (jobID serviceID : String) :
    List BatchRecord :=
  table.filter (fun b => b.jobID == jobID && b.serviceID == serviceID)

/-- One step of taking the first row of the batchID-descending order. -/
def maxBatchStep (acc : Option BatchRecord) (b : BatchRecord) :
    Option BatchRecord :=
  match acc with
  | none => some b
  | some m => if m.batchID < b.batchID then some b else some m

/-- Embeds `withHighestBatchIDForJobService`: the knex query selects the rows
of the batches table matching the given jobID and serviceID, orders them by
batchID descending, and takes the first row (`.first()` is `undefined`, here
`none`, when no row matches).  The fold computes the first row of the
descending order, i.e. a row of maximal batchID among the matching rows. -/
def withHighestBatchIDForJobService (table : List BatchRecord)
    (jobID serviceID : String) : Option BatchRecord :=
  (matchingBatches table jobID serviceID).foldl maxBatchStep none

lemma foldl_maxBatchStep_spec (l : List BatchRecord) (m : BatchRecord) :
    ∃ c, l.foldl maxBatchStep (some m) = some c ∧ (c = m ∨ c ∈ l) ∧
      m.batchID ≤ c.batchID ∧ ∀ b ∈ l, b.batchID ≤ c.batchID := by
  induction l generalizing m with
  | nil => exact ⟨m, rfl, Or.inl rfl, le_refl _, by simp⟩
  | cons h t ih =>
    by_cases hlt : m.batchID < h.batchID
    · obtain ⟨c, hc, hmem, hle, hall⟩ := ih h
      refine ⟨c, ?_, ?_, ?_, ?_⟩
      · simpa [List.foldl_cons, maxBatchStep, hlt] using hc
      · rcases hmem with rfl | hmem
        · exact Or.inr (List.mem_cons_self _ _)
        · exact Or.inr (List.mem_cons_of_mem _ hmem)
      · exact le_trans (le_of_lt hlt) hle
      · intro b hb
        rcases List.mem_cons.mp hb with rfl | hb
        · exact hle
        · exact hall b hb
    · obtain ⟨c, hc, hmem, hle, hall⟩ := ih m
      refine ⟨c, ?_, ?_, hle, ?_⟩
      · simpa [List.foldl_cons, maxBatchStep, hlt] using hc
      · rcases hmem with rfl | hmem
        · exact Or.inl rfl
        · exact Or.inr (List.mem_cons_of_mem _ hmem)
      · intro b hb
        rcases List.mem_cons.mp hb with rfl | hb
        · exact le_trans (le_of_not_lt hlt) hle
        · exact hall b hb

/-- C9: for every (jobID, serviceID) pair, the highest-batch lookup returns
`none` (JS `undefined`) when no batch row matches the pair, and otherwise
returns a matching row whose batchID is maximal among the matching rows; in
particular, after inserting batches with batchIDs 1, 2, 3 in any insertion
order the result's batchID is 3. -/
theorem highestBatch_is_max (table : List BatchRecord) (jobID serviceID : String) :
    (matchingBatches table jobID serviceID = [] →
      withHighestBatchIDForJobService table jobID serviceID = none) ∧
    (matchingBatches table jobID serviceID ≠ [] →
      ∃ b, withHighestBatchIDForJobService table jobID serviceID = some b ∧
        b ∈ matchingBatches table jobID serviceID ∧
        ∀ c ∈ matchingBatches table jobID serviceID, c.batchID ≤ b.batchID) := by
  constructor
  · intro h
    simp [withHighestBatchIDForJobService, h]
  · intro h
    unfold withHighestBatchIDForJobService
    rcases hrows : matchingBatches table jobID serviceID with _ | ⟨r, t⟩
    · exact absurd hrows h
    · obtain ⟨c, hc, hmem, _, hall⟩ := foldl_maxBatchStep_spec t r
      refine ⟨c, ?_, ?_, ?_⟩
      · simpa [List.foldl_cons, maxBatchStep] using hc
      · rcases hmem with rfl | hmem
        · exact List.mem_cons_self _ _
        · exact List.mem_cons_of_mem _ hmem
      · intro b hb
        rcases List.mem_cons.mp hb with rfl | hb
        · obtain ⟨c', hc', hmem', hle', _⟩ := foldl_maxBatchStep_spec t b
          rw [hc] at hc'
          exact (Option.some.inj hc') ▸ hle'
        · exact hall b hb

/-- Witness for `highestBatch_is_max`: a fresh pair yields `none`; with
batchIDs inserted in the order 2, 3, 1 the lookup yields a maximal row. -/
theorem highestBatch_is_max_witness :
    withHighestBatchIDForJobService [] "j" "s" = none ∧
    ∃ b, withHighestBatchIDForJobService
        [⟨"j", "s", 2⟩, ⟨"j", "s", 3⟩, ⟨"j", "s", 1⟩] "j" "s" = some b ∧
      b ∈ matchingBatches [⟨"j", "s", 2⟩, ⟨"j", "s", 3⟩, ⟨"j", "s", 1⟩] "j" "s" ∧
      ∀ c ∈ matchingBatches [⟨"j", "s", 2⟩, ⟨"j", "s", 3⟩, ⟨"j", "s", 1⟩] "j" "s",
        c.batchID ≤ b.batchID :=
  ⟨(highestBatch_is_max [] "j" "s").1 rfl,
   (highestBatch_is_max [⟨"j", "s", 2⟩, ⟨"j", "s", 3⟩, ⟨"j", "s", 1⟩] "j" "s").2
     (by decide)⟩

/-! ## Error resolver (service-runner worker module:
`_getErrorMessageOfStatus`, `_getErrorMessage`) -/

/-- One entry of `status.details.causes` in a kubernetes V1Status. -/
structure StatusCause where
  reason : String
  message : Option String
  deriving DecidableEq, Repr

/-- The slice of a kubernetes V1Status the error resolver reads:
`status.details?.causes` (both `details` and `causes` may be absent). -/
structure V1Status where
  causes : Option (List StatusCause)
  deriving DecidableEq, Repr

/-- Source constant: service exit code for Out Of Memory error. -/
def OOM_EXIT_CODE : String := "137"

/-- Embeds `_getErrorMessageOfStatus`: find the cause whose reason is
`ExitCode`; if its message is the OOM exit code the fixed OOM message is
produced, otherwise the default message `msg` (source default
`'Unknown error'`). -/
def getErrorMessageOfStatus (status : V1Status) (msg : String := "Unknown error") :
    String :=
  let exitCode := status.causes.bind (List.find? (fun i => i.reason == "ExitCode"))
  let errorMsg : Option String :=
    if (exitCode.bind (·.message)) == some OOM_EXIT_CODE then
      some "Service failed due to running out of memory"
    else none
  match errorMsg with
  | some e => e
  | none => msg

/-- State of the `error.json` artifact at the work item's output directory, as
observed through the object store: absent (`objectExists` false), present with
an `error` field, or unreadable (`objectExists`/`getObjectJson` throws or the
content cannot be parsed).  The object store itself is an external
collaborator consumed through `objectExists`/`getObjectJson`. -/
inductive ErrorArtifact
  | absent
  | present (error : String)
  | unreadable
  deriving DecidableEq, Repr

/-- Embeds `_getErrorMessage`: if `error.json` exists, return its `error`
field verbatim; otherwise derive the message from the status; any exception
while reading the artifact is caught and falls through to the status-derived
message with default `'Service terminated without error message'`. -/
def getErrorMessage (status : V1Status) (artifact : ErrorArtifact) : String :=
  match artifact with
  | .present e => e
  | .absent => getErrorMessageOfStatus status
  | .unreadable => getErrorMessageOfStatus status "Service terminated without error message"

/-- The status carries the out-of-memory exit code 137. -/
def hasOOMExitCode (status : V1Status) : Bool :=
  ((status.causes.bind (List.find? (fun i => i.reason == "ExitCode"))).bind
    (·.message)) == some OOM_EXIT_CODE

/-- C2: error-message precedence, first match wins: a readable `error.json`
artifact's `error` field is returned verbatim; otherwise the OOM exit code
yields the fixed OOM message; otherwise a default/status-derived message is
returned; and a failure while reading the artifact falls through to the
OOM/default cases rather than becoming the error itself. -/
theorem errorMessage_precedence (status : V1Status) (artifact : ErrorArtifact) :
    (∀ e, artifact = .present e → getErrorMessage status artifact = e) ∧
    ((∀ e, artifact ≠ .present e) → hasOOMExitCode status = true →
      getErrorMessage status artifact = "Service failed due to running out of memory") ∧
    ((∀ e, artifact ≠ .present e) → hasOOMExitCode status = false →
      (artifact = .absent → getErrorMessage status artifact = "Unknown error") ∧
      (artifact = .unreadable →
        getErrorMessage status artifact = "Service terminated without error message")) := by
  refine ⟨?_, ?_, ?_⟩
  · intro e he
    subst he
    rfl
  · intro hnp hoom
    cases artifact with
    | present e => exact absurd rfl (hnp e)
    | absent =>
      simp only [getErrorMessage, getErrorMessageOfStatus]
      simp only [hasOOMExitCode] at hoom
      simp [hoom]
    | unreadable =>
      simp only [getErrorMessage, getErrorMessageOfStatus]
      simp only [hasOOMExitCode] at hoom
      simp [hoom]
  · intro hnp hoom
    constructor
    · intro ha
      subst ha
      simp only [getErrorMessage, getErrorMessageOfStatus]
      simp only [hasOOMExitCode] at hoom
      simp [hoom]
    · intro ha
      subst ha
      simp only [getErrorMessage, getErrorMessageOfStatus]
      simp only [hasOOMExitCode] at hoom
      simp [hoom]

/-- Witness for `errorMessage_precedence`: with an artifact present and an OOM
status the artifact's message wins; with OOM only, the fixed OOM message is
produced; with neither, the status-derived default is produced. -/
theorem errorMessage_precedence_witness :
    getErrorMessage ⟨some [⟨"ExitCode", some "137"⟩]⟩ (.present "boom") = "boom" ∧
    getErrorMessage ⟨some [⟨"ExitCode", some "137"⟩]⟩ .absent =
      "Service failed due to running out of memory" ∧
    getErrorMessage ⟨some [⟨"ExitCode", some "1"⟩]⟩ .absent = "Unknown error" ∧
    getErrorMessage ⟨some [⟨"ExitCode", some "1"⟩]⟩ .unreadable =
      "Service terminated without error message" :=
  ⟨(errorMessage_precedence ⟨some [⟨"ExitCode", some "137"⟩]⟩ (.present "boom")).1
      "boom" rfl,
   (errorMessage_precedence ⟨some [⟨"ExitCode", some "137"⟩]⟩ .absent).2.1
      (by intro e h; exact ErrorArtifact.noConfusion h) (by decide),
   ((errorMessage_precedence ⟨some [⟨"ExitCode", some "1"⟩]⟩ .absent).2.2
      (by intro e h; exact ErrorArtifact.noConfusion h) (by decide)).1 rfl,
   ((errorMessage_precedence ⟨some [⟨"ExitCode", some "1"⟩]⟩ .unreadable).2.2
      (by intro e h; exact ErrorArtifact.noConfusion h) (by decide)).2 rfl⟩

/-! ## Log persistence (service-runner worker module: `uploadLogs`) -/

/-- An element of the persisted log array: the source type is
`(string | object)[]`; an object element is modelled as its fields. -/
inductive LogElement
  | str (s : String)
  | obj (fields : List (String × String))
  deriving DecidableEq, Repr

/-- The retry marker text interpolated by `uploadLogs`. -/
def retryMessageText (retryCount id : Nat) : String :=
  s!"Start of service execution (retryCount={retryCount}, id={id})"

/-- Embeds `uploadLogs`: build the new content as the retry marker (a plain
string when the first captured log is a string, otherwise a
`\x7b message \x7d` object) followed by the captured logs; when a log file
already exists at the item's log location its content is put in front; the
result is what is written back.  The object store (`objectExists`,
`getObjectJson`, `upload`) is an external collaborator; its state is the
`existing` argument. -/
def uploadLogs (retryCount id : Nat) (existing : Option (List LogElement))
    (logs : List LogElement) : List LogElement :=
  let newFileContent :=
    match logs with
    | .str _ :: _ => LogElement.str (retryMessageText retryCount id) :: logs
    | _ => LogElement.obj [("message", retryMessageText retryCount id)] :: logs
  match existing with
  | some oldFileContent => oldFileContent ++ newFileContent
  | none => newFileContent

/-- The retry marker entry `uploadLogs` inserts for the given logs shape. -/
def retryMarker (retryCount id : Nat) (logs : List LogElement) : LogElement :=
  match logs with
  | .str _ :: _ => .str (retryMessageText retryCount id)
  | _ => .obj [("message", retryMessageText retryCount id)]

/-- C6: the written log array is the previously persisted array (when one
exists, unchanged and in front) followed by a retry marker entry carrying the
item's retryCount and id, followed by the newly captured logs in order; in
particular any existing array is a prefix of what is written (appended to,
never overwritten or dropped). -/
theorem uploadLogs_appends (retryCount id : Nat)
    (existing : Option (List LogElement)) (logs : List LogElement) :
    uploadLogs retryCount id existing logs =
      existing.getD [] ++ retryMarker retryCount id logs :: logs ∧
    existing.getD [] <+: uploadLogs retryCount id existing logs ∧
    (retryMarker retryCount id logs = .str (retryMessageText retryCount id) ∨
      retryMarker retryCount id logs =
        .obj [("message", retryMessageText retryCount id)]) := by
  refine ⟨?_, ?_, ?_⟩
  · cases existing with
    | none =>
      cases logs with
      | nil => rfl
      | cons hd tl => cases hd <;> rfl
    | some old =>
      cases logs with
      | nil => rfl
      | cons hd tl => cases hd <;> rfl
  · cases existing with
    | none => exact List.nil_prefix
    | some old =>
      cases logs with
      | nil => exact ⟨_, rfl⟩
      | cons hd tl => cases hd <;> exact ⟨_, rfl⟩
  · cases logs with
    | nil => exact Or.inr rfl
    | cons hd tl =>
      cases hd with
      | str s => exact Or.inl rfl
      | obj fields => exact Or.inr rfl

/-! ## Worker log capture (service-runner worker module:
`LogStream._handleLogString`) -/

/-- The outcome of `JSON.parse` on a log chunk.  `JSON.parse` is a language
built-in; its result is either a JS object (including arrays; modelled as
field/value pairs with unique keys) or a primitive value (number, string,
boolean or null — modelled by its printed form), or a SyntaxError. -/
inductive JsonParseOutcome
  | objValue (fields : List (String × String))
  | primValue (v : String)
  | syntaxError
  deriving DecidableEq, Repr

/-- An entry pushed onto `logStrArr` (what later gets uploaded):
a plain text line, a structured (object) record, or a primitive JSON value
(`JSON.parse` succeeded with a non-object). -/
inductive CapturedEntry
  | text (s : String)
  | structured (fields : List (String × String))
  | primitive (v : String)
  deriving DecidableEq, Repr

/-- An entry emitted through `streamLogger.debug`: either the structured
record spread together with `worker: true`, or a text line with the
`\x7b worker: true \x7d` metadata argument (modelled as a field list). -/
inductive EmittedEntry
  | structured (fields : List (String × String))
  | text (s : String) (meta : List (String × String))
  deriving DecidableEq, Repr

/-- JS object property deletion on the field-list model. -/
def deleteField (fields : List (String × String)) (k : String) :
    List (String × String) :=
  fields.filter (fun kv => kv.1 != k)

/-- JS object property assignment on the field-list model (replaces an
existing key in place, otherwise appends the new key). -/
def setField (fields : List (String × String)) (k v : String) :
    List (String × String) :=
  if fields.any (fun kv => kv.1 == k) then
    fields.map (fun kv => if kv.1 == k then (k, v) else kv)
  else
    fields ++ [(k, v)]

/-- JS `k in obj` on the field-list model. -/
def hasField (fields : List (String × String)) (k : String) : Bool :=
  fields.any (fun kv => kv.1 == k)

/-- JS property read `obj[k]` on the field-list model (read as the empty
string when the key is missing; the source's rename loop only reads keys it
has just tested with `in`). -/
def getField (fields : List (String × String)) (k : String) : String :=
  ((fields.find? (fun kv => kv.1 == k)).map Prod.snd).getD ""

/-- Whether an emitted log entry carries the worker-origin tag. -/
def workerTagged : EmittedEntry → Bool
  | .structured fields => hasField fields "worker"
  | .text _ meta => hasField meta "worker"

/-- One iteration of the rename loop: if `propertyName` is a property of the
object, copy its value to `worker` + capitalized name and delete it. -/
def renameProp (fields : List (String × String)) (propertyName : String)
    (workerName : String) : List (String × String) :=
  if hasField fields propertyName then
    deleteField (setField fields workerName (getField fields propertyName))
      propertyName
  else fields

/-- The rename loop of `_handleLogString` over
`['timestamp', 'level']`, producing `workerTimestamp` / `workerLevel`. -/
def renameWorkerFields (fields : List (String × String)) :
    List (String × String) :=
  renameProp (renameProp fields "timestamp" "workerTimestamp") "level" "workerLevel"

/-- Result of handling one chunk: the entry pushed onto `logStrArr` and the
entry (if any) passed to `streamLogger.debug`. -/
structure HandleResult where
  captured : CapturedEntry
  emitted : Option EmittedEntry
  deriving DecidableEq, Repr

/-- Embeds `LogStream._handleLogString`.  On a successful `JSON.parse` of an
object the parsed object is pushed (the rename loop then mutates the pushed
object in place, so the captured entry carries the renamed fields) and the
spread copy with `worker: true` is logged.  On a successful parse of a
primitive the value is pushed, then the `in` operator of the rename loop
throws a TypeError which the catch block swallows (it only handles
SyntaxError bodies), so nothing is logged.  On a SyntaxError the raw string
is pushed and logged with `worker: true` metadata. -/
def handleLogString (parsed : JsonParseOutcome) (logStr : String) : HandleResult :=
  match parsed with
  | .objValue fields =>
    let renamed := renameWorkerFields fields
    { captured := .structured renamed,
      emitted := some (.structured (setField renamed "worker" "true")) }
  | .primValue v =>
    { captured := .primitive v, emitted := none }
  | .syntaxError =>
    { captured := .text logStr,
      emitted := some (.text logStr [("worker", "true")]) }

lemma hasField_iff (f : List (String × String)) (k : String) :
    hasField f k = true ↔ ∃ kv ∈ f, kv.1 = k := by
  simp [hasField, List.any_eq_true]

lemma hasField_deleteField_self (f : List (String × String)) (k : String) :
    hasField (deleteField f k) k = false := by
  rw [Bool.eq_false_iff]
  intro h
  obtain ⟨kv, hmem, hk⟩ := (hasField_iff _ _).mp h
  rw [deleteField, List.mem_filter] at hmem
  exact absurd hk (by simpa using hmem.2)

lemma hasField_deleteField_ne (f : List (String × String)) (k k' : String)
    (h : k' ≠ k) : hasField (deleteField f k) k' = hasField f k' := by
  rw [Bool.eq_iff_iff, hasField_iff, hasField_iff]
  constructor
  · rintro ⟨kv, hmem, hk⟩
    exact ⟨kv, (List.mem_filter.mp hmem).1, hk⟩
  · rintro ⟨kv, hmem, hk⟩
    refine ⟨kv, List.mem_filter.mpr ⟨hmem, ?_⟩, hk⟩
    simpa using hk ▸ h

lemma hasField_map_replace (f : List (String × String)) (k v k' : String)
    (h : k' ≠ k) :
    hasField (f.map (fun kv => if kv.1 == k then (k, v) else kv)) k' =
      hasField f k' := by
  rw [Bool.eq_iff_iff, hasField_iff, hasField_iff]
  constructor
  · rintro ⟨kv, hmem, hk⟩
    obtain ⟨kv0, hmem0, hkv⟩ := List.mem_map.mp hmem
    by_cases h0 : kv0.1 = k
    · rw [← hkv] at hk
      simp [h0] at hk
      exact absurd hk.symm h
    · refine ⟨kv0, hmem0, ?_⟩
      rw [← hkv] at hk
      simpa [h0] using hk
  · rintro ⟨kv, hmem, hk⟩
    refine ⟨kv, List.mem_map.mpr ⟨kv, hmem, ?_⟩, hk⟩
    have : kv.1 ≠ k := fun hc => h (hk.symm.trans hc)
    simp [this]

lemma hasField_setField_self (f : List (String × String)) (k v : String) :
    hasField (setField f k v) k = true := by
  unfold setField
  by_cases hany : f.any (fun kv => kv.1 == k)
  · simp only [hany, if_true]
    rw [hasField_iff]
    rw [List.any_eq_true] at hany
    obtain ⟨kv, hmem, hk⟩ := hany
    refine ⟨(k, v), List.mem_map.mpr ⟨kv, hmem, ?_⟩, rfl⟩
    simp [hk]
  · simp only [hany, if_false]
    rw [hasField_iff]
    exact ⟨(k, v), List.mem_append_right _ (List.mem_singleton_self _), rfl⟩

lemma getField_cons_of_ne (kv : String × String) (t : List (String × String))
    (k' : String) (h : kv.1 ≠ k') : getField (kv :: t) k' = getField t k' := by
  rw [getField, getField, List.find?_cons_of_neg _ (by simpa using h)]

lemma getField_cons_of_eq (kv : String × String) (t : List (String × String))
    (k' : String) (h : kv.1 = k') : getField (kv :: t) k' = kv.2 := by
  rw [getField, List.find?_cons_of_pos _ (by simpa using h)]
  rfl

lemma getField_deleteField_ne (f : List (String × String)) (k k' : String)
    (h : k' ≠ k) : getField (deleteField f k) k' = getField f k' := by
  induction f with
  | nil => rfl
  | cons kv t ih =>
    rw [deleteField, List.filter_cons]
    by_cases hk : kv.1 = k
    · simp only [hk, bne_self_eq_false, Bool.false_eq_true, if_false]
      calc getField (t.filter fun kv => kv.1 != k) k'
          = getField (deleteField t k) k' := rfl
        _ = getField t k' := ih
        _ = getField (kv :: t) k' := (getField_cons_of_ne kv t k' (by rw [hk]; exact Ne.symm h)).symm
    · have hb : (kv.1 != k) = true := by simpa using hk
      simp only [hb, if_true]
      by_cases hk' : kv.1 = k'
      · rw [getField_cons_of_eq _ _ _ hk', getField_cons_of_eq _ _ _ hk']
      · rw [getField_cons_of_ne _ _ _ hk', getField_cons_of_ne _ _ _ hk']
        exact ih

lemma getField_map_replace_ne (f : List (String × String)) (k v k' : String)
    (h : k' ≠ k) :
    getField (f.map (fun kv => if kv.1 == k then (k, v) else kv)) k' =
      getField f k' := by
  induction f with
  | nil => rfl
  | cons kv t ih =>
    rw [List.map_cons]
    by_cases hk : kv.1 = k
    · simp only [hk, beq_self_eq_true, if_true]
      rw [getField_cons_of_ne _ _ _ (by simpa using Ne.symm h),
        getField_cons_of_ne _ _ _ (by rw [hk]; exact Ne.symm h)]
      exact ih
    · have hb : (kv.1 == k) = false := by simpa using hk
      simp only [hb, Bool.false_eq_true, if_false]
      by_cases hk' : kv.1 = k'
      · rw [getField_cons_of_eq _ _ _ hk', getField_cons_of_eq _ _ _ hk']
      · rw [getField_cons_of_ne _ _ _ hk', getField_cons_of_ne _ _ _ hk']
        exact ih

lemma getField_map_replace_self (f : List (String × String)) (k v : String)
    (h : hasField f k = true) :
    getField (f.map (fun kv => if kv.1 == k then (k, v) else kv)) k = v := by
  induction f with
  | nil => simp [hasField] at h
  | cons kv t ih =>
    rw [List.map_cons]
    by_cases hk : kv.1 = k
    · simp only [hk, beq_self_eq_true, if_true]
      rw [getField_cons_of_eq _ _ _ rfl]
    · have hb : (kv.1 == k) = false := by simpa using hk
      simp only [hb, Bool.false_eq_true, if_false]
      rw [getField_cons_of_ne _ _ _ hk]
      refine ih ?_
      rw [hasField, List.any_cons, hb, Bool.false_or] at h
      exact h

lemma getField_append_single_self (f : List (String × String)) (k v : String)
    (h : ∀ kv ∈ f, kv.1 ≠ k) : getField (f ++ [(k, v)]) k = v := by
  induction f with
  | nil => exact getField_cons_of_eq _ _ _ rfl
  | cons kv t ih =>
    rw [List.cons_append,
      getField_cons_of_ne _ _ _ (h kv (List.mem_cons_self _ _))]
    exact ih (fun kv2 hm => h kv2 (List.mem_cons_of_mem _ hm))

lemma getField_append_single_ne (f : List (String × String)) (k v k' : String)
    (h : k' ≠ k) : getField (f ++ [(k, v)]) k' = getField f k' := by
  induction f with
  | nil =>
    rw [List.nil_append, getField_cons_of_ne _ _ _ (Ne.symm h)]
  | cons kv t ih =>
    by_cases hk' : kv.1 = k'
    · rw [List.cons_append, getField_cons_of_eq _ _ _ hk',
        getField_cons_of_eq _ _ _ hk']
    · rw [List.cons_append, getField_cons_of_ne _ _ _ hk',
        getField_cons_of_ne _ _ _ hk']
      exact ih

lemma getField_setField_self (f : List (String × String)) (k v : String) :
    getField (setField f k v) k = v := by
  unfold setField
  by_cases hany : f.any (fun kv => kv.1 == k)
  · rw [if_pos hany]
    exact getField_map_replace_self f k v hany
  · rw [if_neg hany]
    refine getField_append_single_self f k v (fun kv hm hc => hany ?_)
    rw [List.any_eq_true]
    exact ⟨kv, hm, by simp [hc]⟩

lemma getField_setField_ne (f : List (String × String)) (k v k' : String)
    (h : k' ≠ k) : getField (setField f k v) k' = getField f k' := by
  unfold setField
  by_cases hany : f.any (fun kv => kv.1 == k)
  · rw [if_pos hany]
    exact getField_map_replace_ne f k v k' h
  · rw [if_neg hany]
    exact getField_append_single_ne f k v k' h

lemma hasField_setField_ne (f : List (String × String)) (k v k' : String)
    (h : k' ≠ k) : hasField (setField f k v) k' = hasField f k' := by
  unfold setField
  by_cases hany : f.any (fun kv => kv.1 == k)
  · simp only [hany, if_true]
    exact hasField_map_replace f k v k' h
  · simp only [hany, if_false]
    rw [Bool.eq_iff_iff, hasField_iff, hasField_iff]
    constructor
    · rintro ⟨kv, hmem, hk⟩
      rcases List.mem_append.mp hmem with hmem | hmem
      · exact ⟨kv, hmem, hk⟩
      · rw [List.mem_singleton.mp hmem] at hk
        exact absurd (by simpa using hk.symm) h
    · rintro ⟨kv, hmem, hk⟩
      exact ⟨kv, List.mem_append_left _ hmem, hk⟩

lemma hasField_renameProp_self (f : List (String × String)) (p w : String) :
    hasField (renameProp f p w) p = false := by
  unfold renameProp
  by_cases h : hasField f p
  · rw [if_pos h]
    exact hasField_deleteField_self _ _
  · rw [if_neg h]
    exact Bool.eq_false_iff.mpr h

lemma hasField_renameProp_ne (f : List (String × String)) (p w k : String)
    (hk : k ≠ p) (hkw : k ≠ w) :
    hasField (renameProp f p w) k = hasField f k := by
  unfold renameProp
  by_cases h : hasField f p
  · rw [if_pos h, hasField_deleteField_ne _ _ _ hk, hasField_setField_ne _ _ _ _ hkw]
  · rw [if_neg h]

lemma hasField_renameProp_target (f : List (String × String)) (p w : String)
    (h : hasField f p = true) (hwp : w ≠ p) :
    hasField (renameProp f p w) w = true := by
  unfold renameProp
  rw [if_pos h, hasField_deleteField_ne _ _ _ hwp, hasField_setField_self]

lemma getField_renameProp_target (f : List (String × String)) (p w : String)
    (h : hasField f p = true) (hwp : w ≠ p) :
    getField (renameProp f p w) w = getField f p := by
  unfold renameProp
  rw [if_pos h, getField_deleteField_ne _ _ _ hwp, getField_setField_self]

lemma getField_renameProp_ne (f : List (String × String)) (p w k : String)
    (hk : k ≠ p) (hkw : k ≠ w) :
    getField (renameProp f p w) k = getField f k := by
  unfold renameProp
  by_cases h : hasField f p
  · rw [if_pos h, getField_deleteField_ne _ _ _ hk, getField_setField_ne _ _ _ _ hkw]
  · rw [if_neg h]

/-- C8 counterexample: the chunk `42` parses as JSON (a number, not an
object); the code pushes the parsed number onto `logStrArr` — not a plain
text line — and, because the rename loop's `in` operator throws a TypeError
that the SyntaxError-only catch swallows, nothing is forwarded to the
scheduler logger, so this captured entry is never tagged as worker output. -/
theorem handleLogString_primitive_not_text :
    handleLogString (.primValue "42") "42" =
      ⟨.primitive "42", none⟩ ∧
    (handleLogString (.primValue "42") "42").captured ≠ .text "42" ∧
    ∀ e, (handleLogString (.primValue "42") "42").emitted = some e → False := by
  refine ⟨rfl, by decide, ?_⟩
  intro e h
  exact Option.noConfusion h

/-- C8 (amended): a chunk parsing as a JSON object is captured as a
structured record with `timestamp`/`level` renamed to
`workerTimestamp`/`workerLevel` (values preserved), and its spread copy with
`worker: true` is sent to the scheduler logger; a chunk failing to parse
(SyntaxError) is captured as a plain text line and logged with
`worker: true` metadata; a chunk parsing as a non-object JSON value is
captured as that parsed value and nothing is logged for it; every entry
that reaches the scheduler logger carries the worker tag. -/
theorem handleLogString_cases (parsed : JsonParseOutcome) (logStr : String) :
    (∀ fields, parsed = .objValue fields →
      (handleLogString parsed logStr).captured =
          .structured (renameWorkerFields fields) ∧
      (handleLogString parsed logStr).emitted =
          some (.structured (setField (renameWorkerFields fields) "worker" "true")) ∧
      hasField (renameWorkerFields fields) "timestamp" = false ∧
      hasField (renameWorkerFields fields) "level" = false ∧
      (hasField fields "timestamp" = true →
        hasField (renameWorkerFields fields) "workerTimestamp" = true ∧
        getField (renameWorkerFields fields) "workerTimestamp" =
          getField fields "timestamp") ∧
      (hasField fields "level" = true →
        hasField (renameWorkerFields fields) "workerLevel" = true ∧
        getField (renameWorkerFields fields) "workerLevel" =
          getField fields "level")) ∧
    (parsed = .syntaxError →
      handleLogString parsed logStr =
        ⟨.text logStr, some (.text logStr [("worker", "true")])⟩) ∧
    (∀ v, parsed = .primValue v →
      handleLogString parsed logStr = ⟨.primitive v, none⟩) ∧
    (∀ e, (handleLogString parsed logStr).emitted = some e →
      workerTagged e = true) := by
  refine ⟨?_, ?_, ?_, ?_⟩
  · rintro fields rfl
    refine ⟨rfl, rfl, ?_, ?_, ?_, ?_⟩
    · rw [renameWorkerFields,
        hasField_renameProp_ne _ _ _ _ (by decide) (by decide),
        hasField_renameProp_self]
    · rw [renameWorkerFields, hasField_renameProp_self]
    · intro h
      constructor
      · rw [renameWorkerFields,
          hasField_renameProp_ne _ _ _ _ (by decide) (by decide)]
        exact hasField_renameProp_target _ _ _ h (by decide)
      · rw [renameWorkerFields,
          getField_renameProp_ne _ _ _ _ (by decide) (by decide)]
        exact getField_renameProp_target _ _ _ h (by decide)
    · intro h
      have hl : hasField (renameProp fields "timestamp" "workerTimestamp") "level" = true := by
        rw [hasField_renameProp_ne _ _ _ _ (by decide) (by decide)]
        exact h
      constructor
      · rw [renameWorkerFields]
        exact hasField_renameProp_target _ _ _ hl (by decide)
      · rw [renameWorkerFields, getField_renameProp_target _ _ _ hl (by decide),
          getField_renameProp_ne _ _ _ _ (by decide) (by decide)]
  · rintro rfl
    rfl
  · rintro v rfl
    rfl
  · intro e h
    cases parsed with
    | objValue fields =>
      rw [show (handleLogString (.objValue fields) logStr).emitted =
          some (.structured (setField (renameWorkerFields fields) "worker" "true"))
        from rfl] at h
      rw [← Option.some.inj h]
      rw [workerTagged]
      exact hasField_setField_self _ _ _
    | primValue v => exact Option.noConfusion h
    | syntaxError =>
      rw [show (handleLogString .syntaxError logStr).emitted =
          some (.text logStr [("worker", "true")]) from rfl] at h
      rw [← Option.some.inj h]
      rfl

/-- Witness for `handleLogString_cases` at a structured chunk with both
reserved fields present and at an unparsable text chunk. -/
theorem handleLogString_cases_witness :
    (handleLogString
        (.objValue [("timestamp", "T"), ("level", "info"), ("msg", "hi")])
        "x").captured =
      .structured (renameWorkerFields
        [("timestamp", "T"), ("level", "info"), ("msg", "hi")]) ∧
    hasField (renameWorkerFields
        [("timestamp", "T"), ("level", "info"), ("msg", "hi")]) "timestamp" = false ∧
    getField (renameWorkerFields
        [("timestamp", "T"), ("level", "info"), ("msg", "hi")]) "workerTimestamp" =
      getField [("timestamp", "T"), ("level", "info"), ("msg", "hi")] "timestamp" ∧
    handleLogString .syntaxError "plain" =
      ⟨.text "plain", some (.text "plain" [("worker", "true")])⟩ := by
  have h := handleLogString_cases
    (.objValue [("timestamp", "T"), ("level", "info"), ("msg", "hi")]) "x"
  have h2 := handleLogString_cases .syntaxError "plain"
  have hx := h.1 _ rfl
  exact ⟨hx.1, hx.2.2.1, (hx.2.2.2.2.1 (by decide)).2, h2.2.1 rfl⟩

/-! ## STAC catalog collection (service-runner worker module:
`_getStacCatalogs`) -/

/-- The character class `\d` of the source regexes. -/
def isAsciiDigit (c : Char) : Bool := '0' ≤ c && c ≤ '9'

/-- The characters of a string, last character first. -/
def revChars (s : String) : List Char := s.data.reverse

/-- Embeds the filter regex `/catalog\d*.json$/` (note the unescaped dot):
the string ends with `catalog`, then zero or more digits, then any one
character, then `json`. -/
def matchesCatalogFilter (s : String) : Bool :=
  match revChars s with
  | 'n' :: 'o' :: 's' :: 'j' :: _ :: rest =>
    ("catalog".data.reverse).isPrefixOf (rest.dropWhile isAsciiDigit)
  | _ => false

/-- Numeric value of a digit string, most significant digit first
(JS `Number` on the captured group). -/
def digitsVal (ds : List Char) : Nat :=
  ds.foldl (fun n c => 10 * n + (c.toNat - Char.toNat '0')) 0

/-- Embeds the capture regex `/.*catalog(\d+)\.json$/`: the match succeeds
exactly when the string ends with `catalog`, then one or more digits, then
the literal `.json`; the captured group is that (maximal) digit run — the
character before it must be the `g` of `catalog`, which is not a digit, so
greedy backtracking always captures the full run before `.json`. -/
def catalogIndexCapture (s : String) : Option Nat :=
  match revChars s with
  | 'n' :: 'o' :: 's' :: 'j' :: '.' :: rest =>
    let ds := rest.takeWhile isAsciiDigit
    if ds.isEmpty then none
    else if ("catalog".data.reverse).isPrefixOf (rest.dropWhile isAsciiDigit) then
      some (digitsVal ds.reverse)
    else none
  | _ => none

/-- The sort key of the comparator (`aNum`/`bNum` in the source).  The
`.getD 0` arm mirrors the source's dead `: 0` default (`aMatches.length > 1`
is true whenever the match is non-null); a null match makes the source
comparator throw a TypeError instead, handled in `sortCatalogs`. -/
def jsSortKey (s : String) : Nat := (catalogIndexCapture s).getD 0

/-- The comparator's ordering: ascending embedded catalog index. -/
def catalogLe (a b : String) : Prop := jsSortKey a ≤ jsSortKey b

instance : DecidableRel catalogLe :=
  fun a b => Nat.decLe (jsSortKey a) (jsSortKey b)

instance : IsTotal String catalogLe :=
  ⟨fun a b => Nat.le_total (jsSortKey a) (jsSortKey b)⟩

instance : IsTrans String catalogLe := ⟨fun _ _ _ => Nat.le_trans⟩

/-- Embeds `urls.sort(comparator)`.  JS `Array.prototype.sort` is stable and,
with this consistent comparator, produces the unique stable ascending order —
the same list as a stable insertion sort.  A sort of two or more elements
evaluates the comparator on every element at least once, so one unparsable
URL (null regex match, hence a TypeError on `.length`) aborts the sort with
an exception, modelled as `Except.error`; with at most one element the
comparator is never called. -/
def sortCatalogs (urls : List String) : Except Unit (List String) :=
  if urls.length ≤ 1 then .ok urls
  else if urls.all (fun u => (catalogIndexCapture u).isSome) then
    .ok (List.insertionSort catalogLe urls)
  else .error ()

/-- The `s3://bucket/key` URL formed for each listed object key. -/
def catalogUrl (bucket fileKey : String) : String :=
  "s3://" ++ bucket ++ "/" ++ fileKey

/-- Embeds `_getStacCatalogs`: when the `batch-catalogs.json` manifest exists
its listed filenames, prefixed with the directory, are returned in listed
order; otherwise the object keys under the directory are filtered with the
catalog pattern, turned into bucket URLs, and sorted by embedded index.  The
object store (`objectExists`, `getObjectJson`, `listObjectKeys`) is an
external collaborator; `manifest` is the parsed `batch-catalogs.json` when it
exists and `bucketKeys` the listed keys. -/
def getStacCatalogs (dir : String) (manifest : Option (List String))
    (bucketKeys : List String) (bucket : String) : Except Unit (List String) :=
  match manifest with
  | some batchCatalogs => .ok (batchCatalogs.map (fun filename => dir ++ filename))
  | none =>
    sortCatalogs ((bucketKeys.filter matchesCatalogFilter).map (catalogUrl bucket))

/-- C4 counterexample: `catalog.json` matches the filter regex
`/catalog\d*.json$/` (zero digits, the unescaped dot matching the literal
dot) but not the capture regex `/.*catalog(\d+)\.json$/`, so with a second
catalog file present the comparator dereferences a null match and throws —
the result is an exception, not the claimed order with the index defaulted
to 0. -/
theorem getStacCatalogs_unparsable_throws :
    getStacCatalogs "s3://b/" none ["catalog.json", "catalog2.json"] "b" =
      .error () ∧
    getStacCatalogs "s3://b/" none ["catalog.json", "catalog2.json"] "b" ≠
      .ok ["s3://b/catalog.json", "s3://b/catalog2.json"] := by
  refine ⟨rfl, ?_⟩
  intro h
  rw [show getStacCatalogs "s3://b/" none ["catalog.json", "catalog2.json"] "b" =
      .error () from rfl] at h
  exact Except.noConfusion h

/-- C4 (amended): with a manifest present its listed filenames, prefixed with
the directory, are returned in listed order; without a manifest the filtered
object keys are turned into URLs and, when every URL carries a parsable
`catalog<N>.json` index, the result is their stable ascending reordering by
index; a list of at most one URL is returned as is; but when two or more
URLs include one without a parsable index the sort throws (the source's
default-to-0 arm is unreachable), so the function fails instead of
defaulting N to 0. -/
theorem getStacCatalogs_resolution (dir : String) (manifest : Option (List String))
    (bucketKeys : List String) (bucket : String) :
    (∀ l, manifest = some l →
      getStacCatalogs dir manifest bucketKeys bucket =
        .ok (l.map (fun filename => dir ++ filename))) ∧
    (manifest = none →
      (((bucketKeys.filter matchesCatalogFilter).map (catalogUrl bucket)).all
          (fun u => (catalogIndexCapture u).isSome) = true →
        ∃ out, getStacCatalogs dir manifest bucketKeys bucket = .ok out ∧
          out.Perm ((bucketKeys.filter matchesCatalogFilter).map (catalogUrl bucket)) ∧
          out.Sorted catalogLe) ∧
      (((bucketKeys.filter matchesCatalogFilter).map (catalogUrl bucket)).all
          (fun u => (catalogIndexCapture u).isSome) = false →
        2 ≤ ((bucketKeys.filter matchesCatalogFilter).map (catalogUrl bucket)).length →
        getStacCatalogs dir manifest bucketKeys bucket = .error ()) ∧
      (((bucketKeys.filter matchesCatalogFilter).map (catalogUrl bucket)).length ≤ 1 →
        getStacCatalogs dir manifest bucketKeys bucket =
          .ok ((bucketKeys.filter matchesCatalogFilter).map (catalogUrl bucket)))) := by
  refine ⟨?_, ?_⟩
  · rintro l rfl
    rfl
  · rintro rfl
    refine ⟨?_, ?_, ?_⟩
    · intro hall
      by_cases hlen :
        ((bucketKeys.filter matchesCatalogFilter).map (catalogUrl bucket)).length ≤ 1
      · refine ⟨(bucketKeys.filter matchesCatalogFilter).map (catalogUrl bucket),
          ?_, List.Perm.refl _, ?_⟩
        · show sortCatalogs _ = _
          rw [sortCatalogs, if_pos hlen]
        · rcases hu : (bucketKeys.filter matchesCatalogFilter).map (catalogUrl bucket)
            with _ | ⟨a, _ | ⟨b, t⟩⟩
          · exact List.sorted_nil
          · exact List.sorted_singleton a
          · rw [hu] at hlen
            simp at hlen
      · refine ⟨List.insertionSort catalogLe
            ((bucketKeys.filter matchesCatalogFilter).map (catalogUrl bucket)),
          ?_, List.perm_insertionSort _ _, List.sorted_insertionSort _ _⟩
        show sortCatalogs _ = _
        rw [sortCatalogs, if_neg hlen, if_pos hall]
    · intro hfalse hlen
      show sortCatalogs _ = _
      rw [sortCatalogs, if_neg (by omega), if_neg (by simp [hfalse])]
    · intro hlen
      show sortCatalogs _ = _
      rw [sortCatalogs, if_pos hlen]

/-- Witness for `getStacCatalogs_resolution`: the manifest path keeps listed
order; the fallback path resolves `catalog0/2/10.json` to the numeric order
[0, 2, 10], not the lexicographic one. -/
theorem getStacCatalogs_resolution_witness :
    getStacCatalogs "s3://b/" (some ["m1.json", "m2.json"]) [] "b" =
      .ok ["s3://b/m1.json", "s3://b/m2.json"] ∧
    (∃ out, getStacCatalogs "s3://b/" none
        ["catalog10.json", "catalog0.json", "catalog2.json"] "b" = .ok out ∧
      out.Perm (((["catalog10.json", "catalog0.json", "catalog2.json"]).filter
          matchesCatalogFilter).map (catalogUrl "b")) ∧
      out.Sorted catalogLe) ∧
    getStacCatalogs "s3://b/" none
        ["catalog10.json", "catalog0.json", "catalog2.json"] "b" =
      .ok ["s3://b/catalog0.json", "s3://b/catalog2.json", "s3://b/catalog10.json"] := by
  refine ⟨?_, ?_, by rfl⟩
  · have h := (getStacCatalogs_resolution "s3://b/" (some ["m1.json", "m2.json"])
      [] "b").1 _ rfl
    simpa using h
  · exact ((getStacCatalogs_resolution "s3://b/" none
      ["catalog10.json", "catalog0.json", "catalog2.json"] "b").2 rfl).1 (by decide)

/-! ## Work item polling, batch path
(services/harmony/app/backends/workflow-orchestration/work-item-polling.ts:
`getWorkItemsFromDatabase`) -/

/-- A work item row, restricted to the attributes the polling code reads. -/
structure WorkItem where
  id : Nat
  serviceID : String
  deriving DecidableEq, Repr

/-- The `WorkItemData` envelope returned to the caller. -/
structure WorkItemData where
  workItem : WorkItem
  maxCmrGranules : Option Nat
  deriving DecidableEq, Repr

/-- Modelled from the spec: `getNextWorkItems` (models/work-item.ts is not
part of this tree) fetches "up to `limit` READY items for that job/service";
the database state is `ready`, the READY items of the polled job for the
polled service. -/
def getNextWorkItems (ready : List WorkItem) (limit : Nat) : List WorkItem :=
  ready.take limit

/-- JS `Math.ceil(a / b)` on nonnegative integers (the loop only divides by a
positive remaining-job count). -/
def ceilDiv (a b : Nat) : Nat := (a + b - 1) / b

/-- The loop state of `getWorkItemsFromDatabase`: the accumulated work items,
the two counters the source readjusts after each job, and the jobs for which
`recalculateCounts` was triggered. -/
structure PollAcc where
  workItems : List WorkItemData
  remainingNumOfJobs : Nat
  remainingBatchSize : Nat
  recalculatedJobs : List String
  deriving Repr

/-- Embeds the inner `processJob` of `getWorkItemsFromDatabase`: compute this
round's work size as `ceil(remainingBatchSize / remainingNumOfJobs)` (the
source guards the division with `remainingNumOfJobs > 0`), fetch up to that
many ready items in the job's own transaction, push each (with
`maxCmrGranules` when the service matches the query-cmr pattern), or trigger
`recalculateCounts` when nothing came back, then decrement the job count by
one and the batch size by the number actually returned.  `isQueryCmr` models
`QUERY_CMR_SERVICE_REGEX.test` and `queryCmrLimit` models
`calculateQueryCmrLimit` (both from a util module not in this tree). -/
def processJob (db : String → List WorkItem) (isQueryCmr : String → Bool)
    (queryCmrLimit : WorkItem → Nat) (acc : PollAcc) (jobId : String) : PollAcc :=
  let workSize := if 0 < acc.remainingNumOfJobs then
      ceilDiv acc.remainingBatchSize acc.remainingNumOfJobs else 1
  let nextWorkItems := getNextWorkItems (db jobId) workSize
  let acc1 :=
    if 0 < nextWorkItems.length then
      { acc with workItems := acc.workItems ++ nextWorkItems.map (fun w =>
          if isQueryCmr w.serviceID then ⟨w, some (queryCmrLimit w)⟩
          else ⟨w, none⟩) }
    else
      { acc with recalculatedJobs := acc.recalculatedJobs ++ [jobId] }
  { acc1 with
    remainingNumOfJobs := acc1.remainingNumOfJobs - 1,
    remainingBatchSize := acc1.remainingBatchSize - nextWorkItems.length }

/-- Embeds `getWorkItemsFromDatabase`: fold `processJob` over the shuffled
job IDs, starting from the fetched job count and the requested batch size.
The Fisher-Yates shuffle draws from `Math.random`; its outcome is taken as
the input `shuffledJobIds` (an arbitrary ordering of the fetched job IDs),
so every theorem below holds for every shuffle outcome. -/
def getWorkItemsFromDatabase (db : String → List WorkItem)
    (isQueryCmr : String → Bool) (queryCmrLimit : WorkItem → Nat)
    (shuffledJobIds : List String) (batchSize : Nat) : PollAcc :=
  shuffledJobIds.foldl (processJob db isQueryCmr queryCmrLimit)
    ⟨[], shuffledJobIds.length, batchSize, []⟩

lemma ceilDiv_le_self (a b : Nat) (hb : 1 ≤ b) : ceilDiv a b ≤ a := by
  have h1 : a ≤ a * b := Nat.le_mul_of_pos_right a hb
  rw [ceilDiv, Nat.div_le_iff_le_mul_add_pred hb]
  have h2 : b * a = a * b := Nat.mul_comm b a
  omega

lemma processJob_eval (db : String → List WorkItem) (isQueryCmr : String → Bool)
    (queryCmrLimit : WorkItem → Nat) (acc : PollAcc) (jobId : String)
    (h : 0 < acc.remainingNumOfJobs) :
    ∃ k, k ≤ ceilDiv acc.remainingBatchSize acc.remainingNumOfJobs ∧
      (processJob db isQueryCmr queryCmrLimit acc jobId).workItems.length =
        acc.workItems.length + k ∧
      (processJob db isQueryCmr queryCmrLimit acc jobId).remainingNumOfJobs =
        acc.remainingNumOfJobs - 1 ∧
      (processJob db isQueryCmr queryCmrLimit acc jobId).remainingBatchSize =
        acc.remainingBatchSize - k ∧
      ∀ j ∈ (processJob db isQueryCmr queryCmrLimit acc jobId).recalculatedJobs,
        j ∈ acc.recalculatedJobs ∨ j = jobId := by
  have hws : (if 0 < acc.remainingNumOfJobs then
      ceilDiv acc.remainingBatchSize acc.remainingNumOfJobs else 1) =
      ceilDiv acc.remainingBatchSize acc.remainingNumOfJobs := if_pos h
  by_cases hk : 0 < (getNextWorkItems (db jobId)
      (ceilDiv acc.remainingBatchSize acc.remainingNumOfJobs)).length
  · have hp : processJob db isQueryCmr queryCmrLimit acc jobId =
        { workItems := acc.workItems ++ (getNextWorkItems (db jobId)
            (ceilDiv acc.remainingBatchSize acc.remainingNumOfJobs)).map (fun w =>
              if isQueryCmr w.serviceID then ⟨w, some (queryCmrLimit w)⟩
              else ⟨w, none⟩),
          remainingNumOfJobs := acc.remainingNumOfJobs - 1,
          remainingBatchSize := acc.remainingBatchSize - (getNextWorkItems (db jobId)
            (ceilDiv acc.remainingBatchSize acc.remainingNumOfJobs)).length,
          recalculatedJobs := acc.recalculatedJobs } := by
      simp only [processJob, hws, if_pos hk]
    refine ⟨(getNextWorkItems (db jobId)
        (ceilDiv acc.remainingBatchSize acc.remainingNumOfJobs)).length,
      List.length_take_le _ _, ?_, ?_, ?_, ?_⟩
    · rw [hp]
      simp [List.length_append, List.length_map]
    · rw [hp]
    · rw [hp]
    · rw [hp]
      intro j hj
      exact Or.inl hj
  · have hk0 : (getNextWorkItems (db jobId)
        (ceilDiv acc.remainingBatchSize acc.remainingNumOfJobs)).length = 0 := by
      omega
    have hp : processJob db isQueryCmr queryCmrLimit acc jobId =
        { workItems := acc.workItems,
          remainingNumOfJobs := acc.remainingNumOfJobs - 1,
          remainingBatchSize := acc.remainingBatchSize - (getNextWorkItems (db jobId)
            (ceilDiv acc.remainingBatchSize acc.remainingNumOfJobs)).length,
          recalculatedJobs := acc.recalculatedJobs ++ [jobId] } := by
      simp only [processJob, hws, if_neg hk]
    refine ⟨(getNextWorkItems (db jobId)
        (ceilDiv acc.remainingBatchSize acc.remainingNumOfJobs)).length,
      List.length_take_le _ _, ?_, ?_, ?_, ?_⟩
    · rw [hp, hk0]
      simp
    · rw [hp]
    · rw [hp]
    · rw [hp]
      intro j hj
      rcases List.mem_append.mp hj with hj | hj
      · exact Or.inl hj
      · exact Or.inr (List.mem_singleton.mp hj)

lemma foldl_processJob_bound (db : String → List WorkItem)
    (isQueryCmr : String → Bool) (queryCmrLimit : WorkItem → Nat) :
    ∀ (jobs : List String) (acc : PollAcc),
    acc.remainingNumOfJobs = jobs.length →
    (jobs.foldl (processJob db isQueryCmr queryCmrLimit) acc).workItems.length ≤
      acc.workItems.length + acc.remainingBatchSize ∧
    (jobs.foldl (processJob db isQueryCmr queryCmrLimit) acc).remainingNumOfJobs = 0 ∧
    ∀ j ∈ (jobs.foldl (processJob db isQueryCmr queryCmrLimit) acc).recalculatedJobs,
      j ∈ acc.recalculatedJobs ∨ j ∈ jobs := by
  intro jobs
  induction jobs with
  | nil =>
    intro acc hacc
    exact ⟨Nat.le_add_right _ _, hacc, fun j hj => Or.inl hj⟩
  | cons jobId rest ih =>
    intro acc hacc
    have hpos : 0 < acc.remainingNumOfJobs := by rw [hacc]; simp
    obtain ⟨k, hkle, hw, hn, hb, hr⟩ :=
      processJob_eval db isQueryCmr queryCmrLimit acc jobId hpos
    have hkB : k ≤ acc.remainingBatchSize :=
      le_trans hkle (ceilDiv_le_self _ _ hpos)
    have hacc' :
        (processJob db isQueryCmr queryCmrLimit acc jobId).remainingNumOfJobs =
          rest.length := by
      rw [hn, hacc]
      simp
    obtain ⟨ih1, ih2, ih3⟩ :=
      ih (processJob db isQueryCmr queryCmrLimit acc jobId) hacc'
    rw [List.foldl_cons]
    refine ⟨?_, ih2, ?_⟩
    · rw [hw, hb] at ih1
      omega
    · intro j hj
      rcases ih3 j hj with hj2 | hj2
      · rcases hr j hj2 with h3 | h3
        · exact Or.inl h3
        · exact Or.inr (h3 ▸ List.mem_cons_self _ _)
      · exact Or.inr (List.mem_cons_of_mem _ hj2)

/-- C3: for every database state, query-cmr classification, shuffle outcome
and batch size, the batch path visits every job (the job counter reaches 0),
computes each round's allotment as `ceil(remainingBatchSize /
remainingJobCount)`, appends what each job's own fetch returns, records a
`recalculateCounts` trigger only for visited jobs, and — because each round
fetches at most `ceil(remainingBatchSize / remainingJobCount) ≤
remainingBatchSize` items — returns at most `batchSize` work items in
total. -/
theorem getWorkItemsFromDatabase_bounded (db : String → List WorkItem)
    (isQueryCmr : String → Bool) (queryCmrLimit : WorkItem → Nat)
    (shuffledJobIds : List String) (batchSize : Nat) :
    (getWorkItemsFromDatabase db isQueryCmr queryCmrLimit shuffledJobIds
      batchSize).workItems.length ≤ batchSize ∧
    (getWorkItemsFromDatabase db isQueryCmr queryCmrLimit shuffledJobIds
      batchSize).remainingNumOfJobs = 0 ∧
    ∀ j ∈ (getWorkItemsFromDatabase db isQueryCmr queryCmrLimit shuffledJobIds
      batchSize).recalculatedJobs, j ∈ shuffledJobIds := by
  obtain ⟨h1, h2, h3⟩ := foldl_processJob_bound db isQueryCmr queryCmrLimit
    shuffledJobIds ⟨[], shuffledJobIds.length, batchSize, []⟩ rfl
  refine ⟨by simpa using h1, h2, fun j hj => ?_⟩
  rcases h3 j hj with h | h
  · simp at h
  · exact h

/-- Witness for `getWorkItemsFromDatabase_bounded`: two jobs, one with two
ready items and one with none, a batch size of 3; the bound holds, all jobs
are visited, and the empty job's recompute trigger names a visited job. -/
theorem getWorkItemsFromDatabase_bounded_witness :
    (getWorkItemsFromDatabase
      (fun j => if j = "a" then [⟨1, "svc"⟩, ⟨2, "svc"⟩] else [])
      (fun _ => false) (fun _ => 0) ["a", "b"] 3).workItems.length ≤ 3 ∧
    (getWorkItemsFromDatabase
      (fun j => if j = "a" then [⟨1, "svc"⟩, ⟨2, "svc"⟩] else [])
      (fun _ => false) (fun _ => 0) ["a", "b"] 3).remainingNumOfJobs = 0 ∧
    "b" ∈ ["a", "b"] := by
  have h := getWorkItemsFromDatabase_bounded
    (fun j => if j = "a" then [⟨1, "svc"⟩, ⟨2, "svc"⟩] else [])
    (fun _ => false) (fun _ => 0) ["a", "b"] 3
  exact ⟨h.1, h.2.1, h.2.2 "b" (by decide)⟩

/-! ## Work item polling, single-item path
(services/harmony/app/backends/workflow-orchestration/work-item-polling.ts:
`getWorkFromDatabase`) -/

/-- The store helpers `getWorkFromDatabase` awaits inside its transaction.
Modelled from the spec: models/user-work.ts and models/work-item.ts are not
part of this tree; each helper is an Except-valued outcome (`error` models a
thrown/rejected store call, which aborts and rolls back the transaction). -/
structure DbOps where
  getNextUsernameForWork : Except String (Option String)
  getNextJobIdForUsernameAndService : String → Except String (Option String)
  getNextWorkItem : String → Except String (Option WorkItem)
  incrementRunningAndDecrementReadyCounts : Except String Unit
  recalculateCounts : String → Except String Unit
  calculateQueryCmrLimit : WorkItem → Except String Nat
  isQueryCmr : String → Bool

/-- What `getWorkFromDatabase` produces: the `WorkItemData` (or null), the
jobs for which `recalculateCounts` committed, and the logged error if the
transaction threw. -/
structure GetWorkDbResult where
  result : Option WorkItemData
  recalculatedJobs : List String
  errorLogged : Option String
  deriving DecidableEq, Repr

/-- Embeds the transaction body of `getWorkFromDatabase`: pick a username,
then a job for it, then a ready work item for the job; on success increment
running / decrement ready counts and (for query-cmr services) compute the
CMR granule limit; when the counts promised work but no item exists, run
`recalculateCounts` for the job.  A thrown store call propagates as
`Except.error`, discarding (rolling back) the transaction's effects. -/
def getWorkTxBody (ops : DbOps) :
    Except String (Option WorkItemData × List String) :=
  match ops.getNextUsernameForWork with
  | .error e => .error e
  | .ok none => .ok (none, [])
  | .ok (some username) =>
    match ops.getNextJobIdForUsernameAndService username with
    | .error e => .error e
    | .ok none => .ok (none, [])
    | .ok (some jobID) =>
      match ops.getNextWorkItem jobID with
      | .error e => .error e
      | .ok (some workItem) =>
        match ops.incrementRunningAndDecrementReadyCounts with
        | .error e => .error e
        | .ok _ =>
          if ops.isQueryCmr workItem.serviceID then
            match ops.calculateQueryCmrLimit workItem with
            | .error e => .error e
            | .ok maxCmrGranules => .ok (some ⟨workItem, some maxCmrGranules⟩, [])
          else .ok (some ⟨workItem, none⟩, [])
      | .ok none =>
        match ops.recalculateCounts jobID with
        | .error e => .error e
        | .ok _ => .ok (none, [jobID])

/-- Embeds `getWorkFromDatabase`: run the transaction; a throw is caught,
logged (`Error getting work from database: ...`) and turned into a null
result instead of being raised to the caller. -/
def getWorkFromDatabase (ops : DbOps) : GetWorkDbResult :=
  match getWorkTxBody ops with
  | .ok (r, recalcs) => ⟨r, recalcs, none⟩
  | .error e => ⟨none, [], some s!"Error getting work from database: {e}"⟩

/-- C7: any error thrown during the transaction is caught, logged and turned
into a null ("no work") result rather than raised (the embedding is a total
function whose error case yields `result = none` and a logged message); and
when the chosen job yields no ready item although the counts chose it,
`recalculateCounts` runs for exactly that job and the call returns null
without retrying. -/
theorem getWorkFromDatabase_error_handling (ops : DbOps) :
    (∀ e, getWorkTxBody ops = .error e →
      getWorkFromDatabase ops =
        ⟨none, [], some s!"Error getting work from database: {e}"⟩) ∧
    (∀ u j, ops.getNextUsernameForWork = .ok (some u) →
      ops.getNextJobIdForUsernameAndService u = .ok (some j) →
      ops.getNextWorkItem j = .ok none →
      ops.recalculateCounts j = .ok () →
      getWorkFromDatabase ops = ⟨none, [j], none⟩) := by
  constructor
  · intro e he
    simp only [getWorkFromDatabase, he]
  · intro u j hu hj hw hr
    simp only [getWorkFromDatabase, getWorkTxBody, hu, hj, hw, hr]

/-- Witness for `getWorkFromDatabase_error_handling`: a store that throws on
the username query yields a logged error and null; a store whose counts name
a job with no ready item yields null with that job recalculated. -/
theorem getWorkFromDatabase_error_handling_witness :
    getWorkFromDatabase
      ⟨.error "boom", fun _ => .ok none, fun _ => .ok none, .ok (),
        fun _ => .ok (), fun _ => .ok 0, fun _ => false⟩ =
      ⟨none, [], some "Error getting work from database: boom"⟩ ∧
    getWorkFromDatabase
      ⟨.ok (some "u"), fun _ => .ok (some "job1"), fun _ => .ok none, .ok (),
        fun _ => .ok (), fun _ => .ok 0, fun _ => false⟩ =
      ⟨none, ["job1"], none⟩ := by
  constructor
  · have h := (getWorkFromDatabase_error_handling
      ⟨.error "boom", fun _ => .ok none, fun _ => .ok none, .ok (),
        fun _ => .ok (), fun _ => .ok 0, fun _ => false⟩).1 "boom" rfl
    simpa using h
  · exact (getWorkFromDatabase_error_handling
      ⟨.ok (some "u"), fun _ => .ok (some "job1"), fun _ => .ok none, .ok (),
        fun _ => .ok (), fun _ => .ok 0, fun _ => false⟩).2 "u" "job1"
      rfl rfl rfl rfl

/-! ## Queue consumer
(services/harmony/app/backends/workflow-orchestration/work-item-polling.ts:
`getWorkFromQueue`) -/

/-- A message received from the service queue: its opaque receipt handle and
its parsed body (`JSON.parse(queueItem.body)`). -/
structure QueueMessage where
  receipt : String
  body : WorkItemData
  deriving DecidableEq, Repr

/-- The externally visible effects of one `getWorkFromQueue` call, in program
order: queue deletions, scheduler-queue requests, the committed store
operations of the status transaction, error logs.  `sendToServiceQueue`
models re-enqueueing a work item on the service queue; the source never
performs it in this function, so proving it absent from every trace states
that dropped items are not requeued here. -/
inductive ConsumerEvent
  | deleteMessage (receipt : String)
  | sendSchedulerRequest (serviceID : String)
  | readStatus (id : Nat)
  | writeStatus (ids : List Nat) (status : WorkItemStatus)
  | sendToServiceQueue (body : WorkItemData)
  | logError (msg : String)
  deriving DecidableEq, Repr

/-- The environment of one `getWorkFromQueue` call: what the short poll and
the long poll would return, whether service queues are enabled, and the
store's responses inside the status transaction.  `getWorkItemStatus` and
`updateWorkItemStatuses` are modelled from the spec (models/work-item.ts is
not part of this tree) as the status read (possibly absent row, possibly
throwing) and the status write (possibly throwing); a throw aborts and rolls
back the transaction, so the trace then carries no committed write. -/
structure QueuePollEnv where
  shortPoll : Option QueueMessage
  longPoll : Option QueueMessage
  useServiceQueues : Bool
  getWorkItemStatus : Nat → Except String (Option WorkItemStatus)
  updateWorkItemStatuses : Except String Unit
  serviceID : String

/-- Embeds `getWorkFromQueue`: short-poll the service queue; if empty,
request scheduling (when service queues are enabled) and long-poll.  On a
message: delete it from the queue before processing, then in one transaction
read the item's current status and, unless it is CANCELED, set it to
RUNNING.  The `return null` of the CANCELED branch only ends the transaction
callback, so the function still returns the parsed item afterwards; a throw
inside the transaction is caught, logged, and the function returns null. -/
def getWorkFromQueue (env : QueuePollEnv) :
    Option WorkItemData × List ConsumerEvent :=
  let polled :=
    match env.shortPoll with
    | some m => (some m, ([] : List ConsumerEvent))
    | none =>
      (env.longPoll,
        if env.useServiceQueues then
          [ConsumerEvent.sendSchedulerRequest env.serviceID]
        else [])
  match polled with
  | (none, ev0) => (none, ev0)
  | (some queueItem, ev0) =>
    let ev1 := ev0 ++ [ConsumerEvent.deleteMessage queueItem.receipt]
    let item := queueItem.body
    match env.getWorkItemStatus item.workItem.id with
    | .error e =>
      (none, ev1 ++
        [ConsumerEvent.logError s!"Error updating work item status to running: {e}"])
    | .ok currentStatus =>
      let ev2 := ev1 ++ [ConsumerEvent.readStatus item.workItem.id]
      if currentStatus = some WorkItemStatus.canceled then
        (some item, ev2)
      else
        match env.updateWorkItemStatuses with
        | .error e =>
          (none, ev2 ++
            [ConsumerEvent.logError s!"Error updating work item status to running: {e}"])
        | .ok _ =>
          (some item,
            ev2 ++ [ConsumerEvent.writeStatus [item.workItem.id] WorkItemStatus.running])

/-- C1 failing input: a dequeued message for work item 7 whose store status
is CANCELED, with a healthy store.  The function deletes the message and
reads the status, but — because the CANCELED branch's `return null` only
exits the transaction callback — it hands the canceled item to the caller
instead of returning null, and commits no RUNNING transition.  This
contradicts the claim's (and the code comment's) "discard silently". -/
theorem getWorkFromQueue_returns_canceled_item :
    (getWorkFromQueue ⟨some ⟨"r1", ⟨⟨7, "svc"⟩, none⟩⟩, none, true,
      fun _ => .ok (some .canceled), .ok (), "svc"⟩).1 =
        some ⟨⟨7, "svc"⟩, none⟩ ∧
    (getWorkFromQueue ⟨some ⟨"r1", ⟨⟨7, "svc"⟩, none⟩⟩, none, true,
      fun _ => .ok (some .canceled), .ok (), "svc"⟩).1 ≠ none ∧
    (getWorkFromQueue ⟨some ⟨"r1", ⟨⟨7, "svc"⟩, none⟩⟩, none, true,
      fun _ => .ok (some .canceled), .ok (), "svc"⟩).2 =
        [.deleteMessage "r1", .readStatus 7] := by
  refine ⟨rfl, ?_, rfl⟩
  intro h
  rw [show (getWorkFromQueue ⟨some ⟨"r1", ⟨⟨7, "svc"⟩, none⟩⟩, none, true,
      fun _ => .ok (some .canceled), .ok (), "svc"⟩).1 =
    some ⟨⟨7, "svc"⟩, none⟩ from rfl] at h
  exact Option.noConfusion h

/-- C10: when the status transaction throws — on the status read or on the
RUNNING update — `getWorkFromQueue` logs the error and returns null; the
queue message was already deleted, no RUNNING write is committed, and the
item is not re-enqueued on the service queue. -/
theorem getWorkFromQueue_txError_drops_item (env : QueuePollEnv)
    (m : QueueMessage) (hm : env.shortPoll = some m) :
    (∀ e, env.getWorkItemStatus m.body.workItem.id = .error e →
      (getWorkFromQueue env).1 = none ∧
      ConsumerEvent.deleteMessage m.receipt ∈ (getWorkFromQueue env).2 ∧
      ConsumerEvent.logError
        s!"Error updating work item status to running: {e}" ∈ (getWorkFromQueue env).2 ∧
      (∀ ids s, ConsumerEvent.writeStatus ids s ∉ (getWorkFromQueue env).2) ∧
      (∀ b, ConsumerEvent.sendToServiceQueue b ∉ (getWorkFromQueue env).2)) ∧
    (∀ st e, env.getWorkItemStatus m.body.workItem.id = .ok st →
      st ≠ some WorkItemStatus.canceled →
      env.updateWorkItemStatuses = .error e →
      (getWorkFromQueue env).1 = none ∧
      ConsumerEvent.deleteMessage m.receipt ∈ (getWorkFromQueue env).2 ∧
      ConsumerEvent.logError
        s!"Error updating work item status to running: {e}" ∈ (getWorkFromQueue env).2 ∧
      (∀ ids s, ConsumerEvent.writeStatus ids s ∉ (getWorkFromQueue env).2) ∧
      (∀ b, ConsumerEvent.sendToServiceQueue b ∉ (getWorkFromQueue env).2)) := by
  constructor
  · intro e he
    simp only [getWorkFromQueue, hm, he]
    refine ⟨trivial, ?_, ?_, ?_, ?_⟩
    · simp
    · simp
    · intro ids s hmem
      simp at hmem
    · intro b hmem
      simp at hmem
  · intro st e hst hnc hupd
    simp only [getWorkFromQueue, hm, hst, if_neg hnc, hupd]
    refine ⟨trivial, ?_, ?_, ?_, ?_⟩
    · simp
    · simp
    · intro ids s hmem
      simp at hmem
    · intro b hmem
      simp at hmem

/-- Witness for `getWorkFromQueue_txError_drops_item`: a message for item 7
with a store whose status read throws, and one whose RUNNING update throws. -/
theorem getWorkFromQueue_txError_drops_item_witness :
    ((getWorkFromQueue ⟨some ⟨"r1", ⟨⟨7, "svc"⟩, none⟩⟩, none, true,
        fun _ => .error "db down", .ok (), "svc"⟩).1 = none ∧
      ConsumerEvent.deleteMessage "r1" ∈
        (getWorkFromQueue ⟨some ⟨"r1", ⟨⟨7, "svc"⟩, none⟩⟩, none, true,
          fun _ => .error "db down", .ok (), "svc"⟩).2) ∧
    ((getWorkFromQueue ⟨some ⟨"r2", ⟨⟨8, "svc"⟩, none⟩⟩, none, true,
        fun _ => .ok (some .ready), .error "write failed", "svc"⟩).1 = none ∧
      ∀ ids s, ConsumerEvent.writeStatus ids s ∉
        (getWorkFromQueue ⟨some ⟨"r2", ⟨⟨8, "svc"⟩, none⟩⟩, none, true,
          fun _ => .ok (some .ready), .error "write failed", "svc"⟩).2) := by
  constructor
  · have h := (getWorkFromQueue_txError_drops_item
      ⟨some ⟨"r1", ⟨⟨7, "svc"⟩, none⟩⟩, none, true,
        fun _ => .error "db down", .ok (), "svc"⟩ ⟨"r1", ⟨⟨7, "svc"⟩, none⟩⟩
      rfl).1 "db down" rfl
    exact ⟨h.1, h.2.1⟩
  · have h := (getWorkFromQueue_txError_drops_item
      ⟨some ⟨"r2", ⟨⟨8, "svc"⟩, none⟩⟩, none, true,
        fun _ => .ok (some .ready), .error "write failed", "svc"⟩
      ⟨"r2", ⟨⟨8, "svc"⟩, none⟩⟩ rfl).2 (some .ready) "write failed" rfl
      (by intro hc; exact WorkItemStatus.noConfusion (Option.some.inj hc)) rfl
    exact ⟨h.1, h.2.2.2.1⟩

/-! ## Service executor (service-runner worker module: `runServiceFromPull`) -/

/-- The slice of `ServiceResponse` the pull runner resolves with: each
`resolve` call site passes either `batchCatalogs` or `error`, never both. -/
structure RunnerResponse where
  batchCatalogs : Option (List String)
  error : Option String
  deriving DecidableEq, Repr

/-- The timeout message `Worker timed out after ${workerTimeout / 1000.0}
seconds`; the JS division is floating point, modelled here for timeouts that
are whole seconds (Harmony configures the timeout in milliseconds). -/
def timeoutErrorMessage (workerTimeout : Nat) : String :=
  s!"Worker timed out after {workerTimeout / 1000} seconds"

/-- The default error `The ${serviceName} service failed.` declared at the
top of `runServiceFromPull`. -/
def defaultServiceError (serviceName : String) : String :=
  s!"The {serviceName} service failed."

/-- What the sidecar completion callback observes when it runs: the terminal
status (`status.status === 'Success'`), whether `uploadLogs` throws, the
outcome of `_getStacCatalogs` (which can itself throw, see C4), and the
message `_getErrorMessage` resolves for a failed status. -/
structure ExecOutcome where
  success : Bool
  uploadLogsFails : Bool
  getCatalogsResult : Except Unit (List String)
  errorMessage : String
  deriving Repr

/-- The events that can race inside the promise executor: the `setTimeout`
timer firing, the exec completion callback running, and the exec promise
rejecting (`.catch`). -/
inductive RunEvent
  | timeoutFires
  | execCallback (outcome : ExecOutcome)
  | execRejects
  deriving Repr

/-- The promise's single-assignment state plus whether `clearTimeout` ran. -/
structure RunState where
  resolved : Option RunnerResponse
  timerCleared : Bool
  deriving Repr

/-- JS promise `resolve`: only the first resolution is observed. -/
def resolveOnce (st : RunState) (v : RunnerResponse) : RunState :=
  match st.resolved with
  | none => { st with resolved := some v }
  | some _ => st

/-- Embeds the body of `runServiceFromPull`'s promise executor as a step per
event.  The timer resolves a timeout error unless `clearTimeout` already ran;
the completion callback uploads logs (a throw there resolves the default
error without clearing the timer), then on Success clears the timer and
resolves the collected catalogs (or the default error if `_getStacCatalogs`
throws, via the same catch), and on failure clears the timer and resolves
`${serviceName}: ${errorMessage}`; a rejected exec promise clears the timer
and resolves the default error. -/
def runStep (serviceName : String) (workerTimeout : Nat) (st : RunState)
    (e : RunEvent) : RunState :=
  match e with
  | .timeoutFires =>
    if st.timerCleared then st
    else resolveOnce st ⟨none, some (timeoutErrorMessage workerTimeout)⟩
  | .execCallback oc =>
    if oc.uploadLogsFails then
      resolveOnce st ⟨none, some (defaultServiceError serviceName)⟩
    else if oc.success then
      match oc.getCatalogsResult with
      | .ok catalogs =>
        resolveOnce { st with timerCleared := true } ⟨some catalogs, none⟩
      | .error _ =>
        resolveOnce { st with timerCleared := true }
          ⟨none, some (defaultServiceError serviceName)⟩
    else
      resolveOnce { st with timerCleared := true }
        ⟨none, some (serviceName ++ ": " ++ oc.errorMessage)⟩
  | .execRejects =>
    resolveOnce { st with timerCleared := true }
      ⟨none, some (defaultServiceError serviceName)⟩

/-- Embeds one `runServiceFromPull` invocation as the fold of its events in
the order they actually occur; the promise starts unresolved with a live
timer. -/
def runServiceFromPull (serviceName : String) (workerTimeout : Nat)
    (events : List RunEvent) : RunState :=
  events.foldl (runStep serviceName workerTimeout) ⟨none, false⟩

lemma resolveOnce_of_resolved (st : RunState) (v w : RunnerResponse)
    (h : st.resolved = some w) : (resolveOnce st v).resolved = some w := by
  rw [resolveOnce, h]
  exact h

lemma runStep_preserves_resolved (serviceName : String) (workerTimeout : Nat)
    (st : RunState) (e : RunEvent) (w : RunnerResponse)
    (h : st.resolved = some w) :
    (runStep serviceName workerTimeout st e).resolved = some w := by
  cases e with
  | timeoutFires =>
    rw [runStep]
    by_cases hc : st.timerCleared
    · rw [if_pos hc]
      exact h
    · rw [if_neg hc]
      exact resolveOnce_of_resolved _ _ _ h
  | execCallback oc =>
    rw [runStep]
    by_cases hu : oc.uploadLogsFails
    · rw [if_pos hu]
      exact resolveOnce_of_resolved _ _ _ h
    · rw [if_neg hu]
      by_cases hs : oc.success
      · rw [if_pos hs]
        cases oc.getCatalogsResult with
        | ok catalogs => exact resolveOnce_of_resolved _ _ _ h
        | error u => exact resolveOnce_of_resolved _ _ _ h
      · rw [if_neg hs]
        exact resolveOnce_of_resolved _ _ _ h
  | execRejects =>
    rw [runStep]
    exact resolveOnce_of_resolved _ _ _ h

lemma foldl_runStep_preserves_resolved (serviceName : String)
    (workerTimeout : Nat) (events : List RunEvent) :
    ∀ (st : RunState) (w : RunnerResponse), st.resolved = some w →
    (events.foldl (runStep serviceName workerTimeout) st).resolved = some w := by
  induction events with
  | nil => exact fun st w h => h
  | cons e rest ih =>
    intro st w h
    rw [List.foldl_cons]
    exact ih _ w (runStep_preserves_resolved _ _ _ _ _ h)

/-- A response carries a success payload or an error, not both. -/
def oneSided (r : RunnerResponse) : Prop :=
  r.batchCatalogs = none ∨ r.error = none

lemma resolveOnce_oneSided (st : RunState) (v : RunnerResponse)
    (hst : ∀ r, st.resolved = some r → oneSided r) (hv : oneSided v) :
    ∀ r, (resolveOnce st v).resolved = some r → oneSided r := by
  intro r hr
  rcases hs : st.resolved with _ | w
  · have heq : resolveOnce st v = { st with resolved := some v } := by
      rw [resolveOnce, hs]
    rw [heq] at hr
    simp at hr
    exact hr ▸ hv
  · have heq : resolveOnce st v = st := by
      rw [resolveOnce, hs]
    rw [heq] at hr
    exact hst r hr

lemma runStep_oneSided (serviceName : String) (workerTimeout : Nat)
    (st : RunState) (e : RunEvent)
    (hst : ∀ r, st.resolved = some r → oneSided r) :
    ∀ r, (runStep serviceName workerTimeout st e).resolved = some r →
      oneSided r := by
  cases e with
  | timeoutFires =>
    rw [runStep]
    by_cases hc : st.timerCleared
    · rw [if_pos hc]
      exact hst
    · rw [if_neg hc]
      exact resolveOnce_oneSided _ _ hst (Or.inl rfl)
  | execCallback oc =>
    rw [runStep]
    by_cases hu : oc.uploadLogsFails
    · rw [if_pos hu]
      exact resolveOnce_oneSided _ _ hst (Or.inl rfl)
    · rw [if_neg hu]
      by_cases hs : oc.success
      · rw [if_pos hs]
        cases oc.getCatalogsResult with
        | ok catalogs => exact resolveOnce_oneSided _ _ hst (Or.inr rfl)
        | error u => exact resolveOnce_oneSided _ _ hst (Or.inl rfl)
      · rw [if_neg hs]
        exact resolveOnce_oneSided _ _ hst (Or.inl rfl)
  | execRejects =>
    rw [runStep]
    exact resolveOnce_oneSided _ _ hst (Or.inl rfl)

lemma foldl_runStep_oneSided (serviceName : String) (workerTimeout : Nat)
    (events : List RunEvent) :
    ∀ (st : RunState), (∀ r, st.resolved = some r → oneSided r) →
    ∀ r, (events.foldl (runStep serviceName workerTimeout) st).resolved = some r →
      oneSided r := by
  induction events with
  | nil => exact fun st h => h
  | cons e rest ih =>
    intro st h
    rw [List.foldl_cons]
    exact ih _ (runStep_oneSided _ _ _ _ h)

/-- C5: the result cell is single-assignment — whatever the first event
resolves is the final result, and later events (the losing side of the
timeout/completion race) are ignored; when the timer fires before any
completion signal, the result is exactly the timeout error carrying the
configured duration and no success payload; every resolved result carries
either catalogs or an error, never both; and any nonempty event sequence
resolves the promise (exactly one resolution). -/
theorem runServiceFromPull_resolution (serviceName : String)
    (workerTimeout : Nat) (events : List RunEvent) :
    (∀ rest, (runServiceFromPull serviceName workerTimeout
        (RunEvent.timeoutFires :: rest)).resolved =
      some ⟨none, some (timeoutErrorMessage workerTimeout)⟩) ∧
    (∀ e rest v,
      (runStep serviceName workerTimeout ⟨none, false⟩ e).resolved = some v →
      (runServiceFromPull serviceName workerTimeout (e :: rest)).resolved =
        some v) ∧
    (∀ r, (runServiceFromPull serviceName workerTimeout events).resolved =
        some r → ¬(r.batchCatalogs.isSome ∧ r.error.isSome)) ∧
    (events ≠ [] →
      (runServiceFromPull serviceName workerTimeout events).resolved.isSome) := by
  refine ⟨?_, ?_, ?_, ?_⟩
  · intro rest
    rw [runServiceFromPull, List.foldl_cons]
    exact foldl_runStep_preserves_resolved _ _ _ _ _ rfl
  · intro e rest v hv
    rw [runServiceFromPull, List.foldl_cons]
    exact foldl_runStep_preserves_resolved _ _ _ _ _ hv
  · intro r hr
    have hos := foldl_runStep_oneSided serviceName workerTimeout events
      ⟨none, false⟩ (by intro r' hr'; exact Option.noConfusion hr') r hr
    rcases hos with h | h <;> rw [h] <;> simp
  · intro hne
    rcases events with _ | ⟨e, rest⟩
    · exact absurd rfl hne
    · rw [runServiceFromPull, List.foldl_cons]
      have hfirst : ∃ v,
          (runStep serviceName workerTimeout ⟨none, false⟩ e).resolved = some v := by
        cases e with
        | timeoutFires =>
          exact ⟨_, rfl⟩
        | execCallback oc =>
          rw [runStep]
          by_cases hu : oc.uploadLogsFails
          · rw [if_pos hu]
            exact ⟨_, rfl⟩
          · rw [if_neg hu]
            by_cases hs : oc.success
            · rw [if_pos hs]
              cases oc.getCatalogsResult with
              | ok catalogs => exact ⟨_, rfl⟩
              | error u => exact ⟨_, rfl⟩
            · rw [if_neg hs]
              exact ⟨_, rfl⟩
        | execRejects =>
          exact ⟨_, rfl⟩
      obtain ⟨v, hv⟩ := hfirst
      rw [foldl_runStep_preserves_resolved _ _ _ _ _ hv]
      rfl

/-- Witness for `runServiceFromPull_resolution`: a run whose only event is
the timer firing resolves the timeout message for a 180000 ms timeout; a run
that completes successfully and whose timer fires afterwards keeps the
success result (the loser is ignored); a nonempty run resolves. -/
theorem runServiceFromPull_resolution_witness :
    (runServiceFromPull "svc" 180000 [RunEvent.timeoutFires]).resolved =
      some ⟨none, some "Worker timed out after 180 seconds"⟩ ∧
    (runServiceFromPull "svc" 180000
      [RunEvent.execCallback ⟨true, false, .ok ["c1"], ""⟩,
        RunEvent.timeoutFires]).resolved = some ⟨some ["c1"], none⟩ ∧
    (runServiceFromPull "svc" 180000 [RunEvent.timeoutFires]).resolved.isSome := by
  have h := runServiceFromPull_resolution "svc" 180000 [RunEvent.timeoutFires]
  refine ⟨?_, ?_, h.2.2.2 (by simp)⟩
  · have h1 := h.1 []
    simpa [timeoutErrorMessage] using h1
  · exact h.2.1 (RunEvent.execCallback ⟨true, false, .ok ["c1"], ""⟩)
      [RunEvent.timeoutFires] ⟨some ["c1"], none⟩ rfl
